import Mathlib

/-!
Shallow embedding of the data/interaction core of `cursive_table_view`
(`src/lib.rs`): the item store with its sort-reference permutation, the
column registry with per-column sort state, the width-allocation layout
algorithm, and the row/column navigation state machine.

Modelling conventions:
* Rust `std::cmp::Ordering` is Lean's `Ordering` (`Less ↦ .lt`,
  `Equal ↦ .eq`, `Greater ↦ .gt`).
* Rust `usize` is `Nat`; wrapping subtraction is made explicit with
  `% USIZE` where the source can underflow (`usizePred`); `saturating_sub`
  is Nat subtraction.
* `Vec` indexing `v[i]` is `List.getD` (the source panics out of bounds;
  theorems that rely on an in-bounds access carry the hypotheses making it
  in bounds).
* `Vec::sort_by(comparator)` (a stable sort) is `List.mergeSort` with
  `le a b := comparator a b ≠ Greater`, Lean's stable merge sort.
* The `ScrollBase` (scrollbar geometry), the rendering code and the
  `Cursive` callback closures are outside the model; only the *presence*
  of the `on_sort` / `on_submit` / `on_select` callbacks is kept, since
  the event-handling control flow branches on it.
* The item trait method `cmp(&self, other, column)` is a parameter
  `cmp : T → T → H → Ordering`; `column_indicies` (a `HashMap` used only
  through `contains_key`) is the list of keys that were inserted.
-/

/-- Rust `cursive::align::HAlign`. -/
inductive HAlign where
  | left
  | center
  | right
deriving DecidableEq

/-- Source `enum TableColumnWidth { Percent(usize), Absolute(usize) }`. -/
inductive TableColumnWidth where
  | percent (w : Nat)
  | absolute (w : Nat)
deriving DecidableEq

/-- Source `struct TableColumn<H>` (lib.rs:818-827). -/
structure TableColumn (H : Type) where
  column : H
  title : String
  selected : Bool
  alignment : HAlign
  order : Ordering
  width : Nat
  default_order : Ordering
  requested_width : Option TableColumnWidth
deriving DecidableEq

/-- Source `TableColumn::new` (lib.rs:861-872). -/
def TableColumn.new (column : H) (title : String) : TableColumn H :=
  { column := column
    title := title
    selected := false
    alignment := HAlign.left
    order := Ordering.eq
    width := 0
    default_order := Ordering.lt
    requested_width := none }

instance [Inhabited H] : Inhabited (TableColumn H) :=
  ⟨TableColumn.new default ""⟩

/-- Source `TableColumn::ordering` (sets the configured default direction). -/
def TableColumn.set_ordering (c : TableColumn H) (order : Ordering) : TableColumn H :=
  { c with default_order := order }

/-- Source `TableColumn::align`. -/
def TableColumn.set_align (c : TableColumn H) (alignment : HAlign) : TableColumn H :=
  { c with alignment := alignment }

/-- Source `TableColumn::width` (requests an absolute width). The name
carries a `set_` to avoid clashing with the structure field. -/
def TableColumn.set_width (c : TableColumn H) (w : Nat) : TableColumn H :=
  { c with requested_width := some (TableColumnWidth.absolute w) }

/-- Source `TableColumn::width_percent` (requests a percentage width). -/
def TableColumn.set_width_percent (c : TableColumn H) (w : Nat) : TableColumn H :=
  { c with requested_width := some (TableColumnWidth.percent w) }

/-- Source `struct TableView<T, H>` (lib.rs:105-123), minus the rendering
state (`scrollbase`) and the callback closures, whose presence is tracked
by the three `has_*` flags. -/
structure TableView (T H : Type) where
  enabled : Bool
  last_size_x : Nat
  last_size_y : Nat
  column_select : Bool
  columns : List (TableColumn H)
  column_indicies : List H
  focus : Nat
  items : List T
  sort_refs : List Nat
  has_on_sort : Bool
  has_on_submit : Bool
  has_on_select : Bool
deriving DecidableEq

/-- Source `TableView::new` (lib.rs:131-149). -/
def TableView.new : TableView T H :=
  { enabled := true
    last_size_x := 0
    last_size_y := 0
    column_select := false
    columns := []
    column_indicies := []
    focus := 0
    items := []
    sort_refs := []
    has_on_sort := false
    has_on_submit := false
    has_on_select := false }

/-- Source `TableView::len` (lib.rs:320-322). -/
def TableView.len (s : TableView T H) : Nat :=
  s.items.length

/-- Source `TableView::is_empty` (lib.rs:325-327). -/
def TableView.is_empty (s : TableView T H) : Bool :=
  s.items.isEmpty

/-- Source `TableView::selected_item` (lib.rs:370-377): `sort_refs[focus]`
when the store is not empty. The out-of-bounds access panics in Rust and is
`getD _ 0` here. -/
def TableView.selected_item (s : TableView T H) : Option Nat :=
  if s.items.isEmpty then none else some (s.sort_refs.getD s.focus 0)

/-- Source `TableView::selected_row` (lib.rs:458-465). -/
def TableView.selected_row (s : TableView T H) : Option Nat :=
  if s.items.isEmpty then none else some s.focus

/-- Source `TableView::select_row` (lib.rs:468-471); the `scroll_to` call
touches only the scrollbar and is outside the model. -/
def TableView.select_row (s : TableView T H) (row : Nat) : TableView T H :=
  { s with focus := row }

/-- Scan loop of `TableView::select_item` (lib.rs:384-390): first position
`i` (counting from the accumulator) whose entry equals `item_index`, `none`
when the loop finishes without a match. -/
def scanSelect (item_index : Nat) : List Nat → Nat → Option Nat
  | [], _ => none
  | r :: rs, i => if r = item_index then some i else scanSelect item_index rs (i + 1)

/-- Source `TableView::select_item` (lib.rs:381-392): focus moves to the
display row referencing `item_index`; no-op when the index is out of bounds
or (impossible in well-formed states) absent from `sort_refs`. -/
def TableView.select_item (s : TableView T H) (item_index : Nat) : TableView T H :=
  if item_index < s.items.length then
    match scanSelect item_index s.sort_refs 0 with
    | some index => { s with focus := index }
    | none => s
  else s

/-- Source private `TableView::sort` (lib.rs:506-513): the first column
whose order is not `Equal`, with that order. -/
def TableView.sortState (s : TableView T H) : Option (H × Ordering) :=
  s.columns.findSome? fun c =>
    if c.order ≠ Ordering.eq then some (c.column, c.order) else none

/-- Comparator dispatch inside `TableView::sort_by` (lib.rs:212-219):
`compare(items[a], items[b])` when the requested order is `Less`
(ascending), `compare(items[b], items[a])` otherwise. -/
def refCompare [Inhabited T] (cmp : T → T → H → Ordering) (items : List T)
    (column : H) (order : Ordering) (a b : Nat) : Ordering :=
  if order = Ordering.lt then cmp (items.getD a default) (items.getD b default) column
  else cmp (items.getD b default) (items.getD a default) column

/-- First half of `TableView::sort_by` (lib.rs:195-205): when the key is
registered, mark exactly the matching column selected with the requested
order and reset every other column to unselected/`Equal`. -/
def TableView.sort_mark [DecidableEq H] (s : TableView T H) (column : H)
    (order : Ordering) : TableView T H :=
  if column ∈ s.column_indicies then
    { s with columns := s.columns.map fun c =>
        if c.column = column then { c with selected := true, order := order }
        else { c with selected := false, order := Ordering.eq } }
  else s

/-- Second half of `TableView::sort_by` (lib.rs:207-224): for a non-empty
store (and regardless of whether the key is registered), stably re-sort
`sort_refs` with the dispatched comparator and re-select the previously
selected storage item. -/
def TableView.sort_refs_pass [Inhabited T] (cmp : T → T → H → Ordering)
    (s : TableView T H) (column : H) (order : Ordering) : TableView T H :=
  if s.items.isEmpty then s
  else
    let old_item := s.selected_item.getD 0
    let sorted := s.sort_refs.mergeSort fun a b =>
      refCompare cmp s.items column order a b != Ordering.gt
    let s := { s with sort_refs := sorted }
    s.select_item old_item

/-- Source `TableView::sort_by` (lib.rs:193-226): the flag update followed
by the re-sort pass. -/
def TableView.sort_by [DecidableEq H] [Inhabited T] (cmp : T → T → H → Ordering)
    (s : TableView T H) (column : H) (order : Ordering) : TableView T H :=
  (s.sort_mark column order).sort_refs_pass cmp column order

/-- Source `TableView::clear` (lib.rs:313-317). -/
def TableView.clear (s : TableView T H) : TableView T H :=
  { s with items := [], sort_refs := [], focus := 0 }

/-- Source `TableView::set_items` (lib.rs:332-345): replace the records,
rebuild `sort_refs` as the identity permutation, then re-apply the active
sort if any. -/
def TableView.set_items [DecidableEq H] [Inhabited T] (cmp : T → T → H → Ordering)
    (s : TableView T H) (items : List T) : TableView T H :=
  let s := { s with items := items, sort_refs := List.range items.length }
  match s.sortState with
  | some (column, order) => s.sort_by cmp column order
  | none => s

/-- Source `TableView::insert_item` (lib.rs:397-411). The source pushes the
item and then pushes `self.items.len()` — evaluated *after* the push, hence
`s.items.length + 1` relative to the pre-push state — onto `sort_refs`,
then re-applies the active sort if any. -/
def TableView.insert_item [DecidableEq H] [Inhabited T] (cmp : T → T → H → Ordering)
    (s : TableView T H) (item : T) : TableView T H :=
  let s := { s with
    items := s.items ++ [item]
    sort_refs := s.sort_refs ++ [s.items.length + 1] }
  match s.sortState with
  | some (column, order) => s.sort_by cmp column order
  | none => s

/-- Source `TableView::focus_up` (lib.rs:526-530). -/
def TableView.focus_up (s : TableView T H) (n : Nat) : TableView T H :=
  { s with focus := s.focus - min s.focus n }

/-- Number of values of Rust `usize` (64-bit). -/
def USIZE : Nat := 2 ^ 64

/-- Wrapping `n - 1` on `usize`: the source computes `self.items.len() - 1`
which underflows when the store is empty (a panic in debug builds, wrapping
to `2^64 - 1` in release builds; the wrapping value is modelled). -/
def usizePred (n : Nat) : Nat :=
  (n + (USIZE - 1)) % USIZE

/-- Source `TableView::focus_down` (lib.rs:532-535):
`min(focus + n, items.len() - 1)` with the wrapping subtraction. -/
def TableView.focus_down (s : TableView T H) (n : Nat) : TableView T H :=
  { s with focus := min (s.focus + n) (usizePred s.items.length) }

/-- Source `TableView::remove_item` (lib.rs:415-447): out-of-bounds indices
return `none` and change nothing; otherwise the focus retreats when the
removed record was selected, the matching `sort_refs` entry is dropped
(`retain`), every remaining reference greater than the index is decremented,
and the record is removed from storage and returned. -/
def TableView.remove_item (s : TableView T H) (item_index : Nat) :
    Option T × TableView T H :=
  if item_index < s.items.length then
    let s := if s.selected_item = some item_index then s.focus_up 1 else s
    let refs := (s.sort_refs.filter (fun r => r != item_index)).map
      (fun r => if item_index < r then r - 1 else r)
    let s := { s with sort_refs := refs }
    (s.items.get? item_index, { s with items := s.items.eraseIdx item_index })
  else (none, s)

/-- Source `TableView::take_items` (lib.rs:450-455): reset the focus to row
0, clear `sort_refs`, drain and return all records. -/
def TableView.take_items (s : TableView T H) : List T × TableView T H :=
  let s := s.select_row 0
  (s.items, { s with sort_refs := [], items := [] })

/-- Source `TableView::default_column` (lib.rs:176-189): when the key is
registered, mark exactly that column selected with its default order and
reset every other column; otherwise change nothing. -/
def TableView.default_column [DecidableEq H] (s : TableView T H) (column : H) :
    TableView T H :=
  if column ∈ s.column_indicies then
    { s with columns := s.columns.map fun c =>
        if c.column = column then { c with selected := true, order := c.default_order }
        else { c with selected := false, order := Ordering.eq } }
  else s

/-- Source `TableView::column` (lib.rs:156-173): register the key, append
the configured column, and make the first column the default one. -/
def TableView.add_column [DecidableEq H] (s : TableView T H) (column : H)
    (title : String) (callback : TableColumn H → TableColumn H) : TableView T H :=
  let s := { s with
    column_indicies := s.column_indicies ++ [column]
    columns := s.columns ++ [callback (TableColumn.new column title)] }
  if s.columns.length = 1 then s.default_column column else s

/-- Source private `TableView::active_column` (lib.rs:537-539): position of
the selected column, 0 when none is selected. -/
def TableView.active_column (s : TableView T H) : Nat :=
  (s.columns.findIdx? (fun c => c.selected)).getD 0

/-- Source `TableView::column_cancel` (lib.rs:541-546): leave column-select
mode and restore each column's selection flag from its sort order. -/
def TableView.column_cancel (s : TableView T H) : TableView T H :=
  { s with
    column_select := false
    columns := s.columns.map (fun c => { c with selected := c.order != Ordering.eq }) }

/-- Assignment `columns[i].selected = b` of the source: in-place update of
one element; the source's indexing panics out of bounds, the model leaves
the list unchanged there. -/
def setSelected (b : Bool) : List (TableColumn H) → Nat → List (TableColumn H)
  | [], _ => []
  | c :: cs, 0 => { c with selected := b } :: cs
  | c :: cs, n + 1 => c :: setSelected b cs n

/-- Source `TableView::column_next` (lib.rs:548-558): move the active
column pointer one to the right when not already on the last column
(the guard computes `columns.len() - 1` in `usize`). -/
def TableView.column_next (s : TableView T H) : TableView T H × Bool :=
  let column := s.active_column
  if column < usizePred s.columns.length then
    ({ s with columns := setSelected true (setSelected false s.columns column) (column + 1) },
     true)
  else (s, false)

/-- Source `TableView::column_prev` (lib.rs:560-570). -/
def TableView.column_prev (s : TableView T H) : TableView T H × Bool :=
  let column := s.active_column
  if column > 0 then
    ({ s with columns := setSelected true (setSelected false s.columns column) (column - 1) },
     true)
  else (s, false)

/-- Source private `TableView::column_select` (lib.rs:572-593), renamed to
avoid the clash with the `column_select` field: commit a sort on the active
column — the column's default order when it differs from the currently
sorted column, else toggle `Less ↔ Greater`. -/
def TableView.column_select_commit [DecidableEq H] [Inhabited T] [Inhabited H]
    (cmp : T → T → H → Ordering) (s : TableView T H) : TableView T H :=
  let next := s.active_column
  let column := (s.columns.getD next default).column
  let current := (s.columns.findIdx? (fun c => c.order != Ordering.eq)).getD 0
  let order :=
    if current ≠ next then (s.columns.getD next default).default_order
    else if (s.columns.getD current default).order = Ordering.lt then Ordering.gt
    else Ordering.lt
  s.sort_by cmp column order

/-- Exact-arithmetic model of the source's
`(size.x as f32 / 100.0 * width as f32).ceil() as usize` (lib.rs:685):
the ceiling of `size_x * p / 100`. The `f32` chain is not bit-faithful to
this exact value (the `usize → f32` cast rounds to 24 significant bits, so
they diverge for `size_x ≥ 2^24` and for fractions like `0.3` that are not
binary-exact); no theorem below depends on this value — it reaches a
column width only through the `usize`-level `min` cap of `columnWidth`,
which bounds it by the remaining budget whatever the raw value is. -/
def percentCeil (size_x p : Nat) : Nat :=
  (size_x * p + 99) / 100

/-- Width of one sized column (lib.rs:683-689): a percentage width is
capped at the width still remaining to allocate, an absolute width is
granted exactly. -/
def columnWidth (size_x remaining : Nat) : TableColumnWidth → Nat
  | TableColumnWidth.percent w => min (percentCeil size_x w) remaining
  | TableColumnWidth.absolute w => w

/-- Loop over the sized columns (lib.rs:681-691): computed widths in order
together with the final remaining width (`saturating_sub` at each step). -/
def sizedWidths (size_x : Nat) : Nat → List TableColumnWidth → List Nat × Nat
  | remaining, [] => ([], remaining)
  | remaining, w :: ws =>
    let cw := columnWidth size_x remaining w
    let rest := sizedWidths size_x (remaining - cw) ws
    (cw :: rest.1, rest.2)

/-- Write the computed widths back onto the column list: sized columns
consume the next entry of the sized-width list (built from exactly those
columns, so the lists run out together), unsized columns all receive the
evenly spread width `uw`. -/
def assignWidths (uw : Nat) : List (TableColumn H) → List Nat → List (TableColumn H)
  | [], _ => []
  | c :: cs, ws =>
    match c.requested_width with
    | some _ =>
      match ws with
      | w :: ws2 => { c with width := w } :: assignWidths uw cs ws2
      | [] => { c with width := 0 } :: assignWidths uw cs []
    | none => { c with width := uw } :: assignWidths uw cs ws

/-- Source `View::layout` (lib.rs:654-705): skip when the size is
unchanged; otherwise reserve 3 cells per inter-column separator and 2 more
when a scrollbar will show, allot the sized columns in order, and spread the
remainder evenly (floor) over the unsized columns.

The source computes the unsized spread as
`(remaining_width as f32 / remaining_columns as f32).floor() as usize`
(lib.rs:695-699); the model idealizes it as exact Nat division. The two
differ once the `usize → f32` cast rounds (values `≥ 2^24`): e.g. with
`remaining_width = 16777219` and one unsized column the program casts to
`16777220.0` and assigns width `16777220`, one more than the exact
quotient. No theorem below asserts anything about the width of an unsized
column: the layout bound proved for C5 assumes every column is
`Percent`-sized, so the spread value is never assigned, and the
counterexample evaluations only exercise the spread at `remaining = 0`,
where `f32` is exact. -/
def TableView.layout (s : TableView T H) (size_x size_y : Nat) : TableView T H :=
  if size_x = s.last_size_x ∧ size_y = s.last_size_y then s
  else
    let item_count := s.items.length
    let column_count := s.columns.length
    let available_width := size_x - (column_count - 1) * 3
    let available_width :=
      if size_y - 1 < item_count then available_width - 2 else available_width
    let sized := sizedWidths size_x available_width
      (s.columns.filterMap (fun c => c.requested_width))
    let remaining_columns := (s.columns.filter (fun c => c.requested_width.isNone)).length
    let uw := sized.2 / remaining_columns
    { s with
      columns := assignWidths uw s.columns sized.1
      last_size_x := size_x
      last_size_y := size_y }

/-- Total width occupied by a drawn row per `draw_columns` (lib.rs:484-502):
each column advances the offset by its width plus a 3-cell separator, so the
columns span their width sum plus `3 * (count - 1)` separator cells. -/
def TableView.totalDrawWidth (s : TableView T H) : Nat :=
  (s.columns.map (fun c => c.width)).sum + 3 * (s.columns.length - 1)

/-- Source `View::take_focus` (lib.rs:707-709). -/
def TableView.take_focus (s : TableView T H) : Bool :=
  s.enabled && !s.items.isEmpty

/-- Keyboard events dispatched by `View::on_event` (lib.rs:711-811);
`other` stands for every event reaching the wildcard arm. -/
inductive TEvent where
  | right
  | left
  | up
  | down
  | pageUp
  | pageDown
  | home
  | endKey
  | enter
  | other
deriving DecidableEq

/-- Source `View::on_event` (lib.rs:711-811). Returns the new state and
whether the event was consumed. The inner match mirrors the Rust match:
`some b` on the second component is an early `return` (`Ignored` for a
failed boundary move or an unmatched event, `Consumed` for the callback
returns), `none` falls through to the final selection-change check. -/
def TableView.on_event [DecidableEq H] [Inhabited T] [Inhabited H]
    (cmp : T → T → H → Ordering) (s : TableView T H) (event : TEvent) :
    TableView T H × Bool :=
  let last_focus := s.focus
  let step : TableView T H × Option Bool :=
    match event with
    | TEvent.right =>
      if s.column_select then
        let moved := s.column_next
        if moved.2 then (moved.1, none) else (moved.1, some false)
      else ({ s with column_select := true }, none)
    | TEvent.left =>
      if s.column_select then
        let moved := s.column_prev
        if moved.2 then (moved.1, none) else (moved.1, some false)
      else ({ s with column_select := true }, none)
    | TEvent.up =>
      if 0 < s.focus ∨ s.column_select then
        if s.column_select then (s.column_cancel, none) else (s.focus_up 1, none)
      else (s, some false)
    | TEvent.down =>
      if s.focus + 1 < s.items.length ∨ s.column_select then
        if s.column_select then (s.column_cancel, none) else (s.focus_down 1, none)
      else (s, some false)
    | TEvent.pageUp => (s.column_cancel.focus_up 10, none)
    | TEvent.pageDown => (s.column_cancel.focus_down 10, none)
    | TEvent.home => ({ s.column_cancel with focus := 0 }, none)
    | TEvent.endKey => ({ s.column_cancel with focus := usizePred s.items.length }, none)
    | TEvent.enter =>
      if s.column_select then
        let s2 := s.column_select_commit cmp
        if s2.has_on_sort then (s2, some true) else (s2, none)
      else if !s.is_empty && s.has_on_submit then (s, some true)
      else (s, none)
    | TEvent.other => (s, some false)
  match step with
  | (s2, some b) => (s2, b)
  | (s2, none) => (s2, !s2.is_empty && (last_focus != s2.focus))

/-- Item comparator used by the concrete examples: the items are `Nat`s and
every column key compares them numerically. -/
def natCmp : Nat → Nat → Nat → Ordering := fun a b _ => compare a b

/-- Comparator under which every pair of items ties, for the tie-breaking
examples. -/
def eqAllCmp : Nat → Nat → Nat → Ordering := fun _ _ _ => Ordering.eq

/-- One registered column (key 0), two items stored as `[5, 3]`, identity
display order. -/
def oneColState : TableView Nat Nat :=
  { (TableView.new : TableView Nat Nat) with
    column_indicies := [0]
    columns := [TableColumn.new 0 "a"]
    items := [5, 3]
    sort_refs := [0, 1] }

/-- Three items with a non-trivial display permutation, focus on row 1. -/
def removeState : TableView Nat Nat :=
  { (TableView.new : TableView Nat Nat) with
    items := [10, 20, 30]
    sort_refs := [2, 0, 1]
    focus := 1 }

/-- Two items in reverse value order, identity display order. -/
def sortWitState : TableView Nat Nat :=
  { (TableView.new : TableView Nat Nat) with
    items := [5, 3]
    sort_refs := [0, 1] }

/-- Two registered columns, the first currently sorted ascending and marked
selected. -/
def twoColState : TableView Nat Nat :=
  { (TableView.new : TableView Nat Nat) with
    column_indicies := [0, 1]
    columns := [{ TableColumn.new 0 "a" with selected := true, order := Ordering.lt },
                TableColumn.new 1 "b"] }

/-- Like `twoColState` but with the *second* column marked selected (the
active column moved right in column-select mode) while the first is still
the sorted one. -/
def twoColStateB : TableView Nat Nat :=
  { (TableView.new : TableView Nat Nat) with
    column_indicies := [0, 1]
    columns := [{ TableColumn.new 0 "a" with order := Ordering.lt },
                { TableColumn.new 1 "b" with
                  selected := true
                  default_order := Ordering.gt }] }

/-- A single column requesting an absolute width of 1000 cells. -/
def absColState : TableView Nat Nat :=
  { (TableView.new : TableView Nat Nat) with
    column_indicies := [0]
    columns := [{ TableColumn.new 0 "a" with
                  requested_width := some (TableColumnWidth.absolute 1000) }] }

/-- Two unsized columns. -/
def twoUnsizedState : TableView Nat Nat :=
  { (TableView.new : TableView Nat Nat) with
    column_indicies := [0, 1]
    columns := [TableColumn.new 0 "a", TableColumn.new 1 "b"] }

/-- A 50% column next to a 30% column (every column `Percent`-sized). -/
def percentColState : TableView Nat Nat :=
  { (TableView.new : TableView Nat Nat) with
    column_indicies := [0, 1]
    columns := [{ TableColumn.new 0 "a" with
                  requested_width := some (TableColumnWidth.percent 50) },
                { TableColumn.new 1 "b" with
                  requested_width := some (TableColumnWidth.percent 30) }] }

/-- Helper: a pairwise relation that holds for every pair holds along any
list. -/
theorem pairwise_of_all {α : Type} {R : α → α → Prop} (h : ∀ a b, R a b) :
    ∀ l : List α, List.Pairwise R l
  | [] => List.Pairwise.nil
  | a :: l => List.Pairwise.cons (fun b _ => h a b) (pairwise_of_all h l)

/-- C1: the claim fails on the code. Inserting the item `7` into the empty
table appends it at storage index 0, but the `sort_refs` entry appended is
`items.len()` evaluated *after* the push — the post-insertion length 1, not
the pre-insertion length 0. -/
theorem C1_insert_item_appends_post_insertion_length :
    ((TableView.new : TableView Nat Nat).insert_item natCmp 7).items = [7] ∧
    ((TableView.new : TableView Nat Nat).insert_item natCmp 7).sort_refs = [1] ∧
    ((TableView.new : TableView Nat Nat).insert_item natCmp 7).items.length - 1 = 0 := by
  refine ⟨rfl, rfl, rfl⟩

/-- C2: the claim fails on the code. After a single `insert_item` on the
empty table `sort_refs = [1]`, which is not a permutation of
`0..items.len() = 0..1 = [0]` — the off-by-one in `insert_item` breaks the
permutation invariant. -/
theorem C2_insert_item_breaks_permutation :
    ¬ List.Perm ((TableView.new : TableView Nat Nat).insert_item natCmp 7).sort_refs
      (List.range ((TableView.new : TableView Nat Nat).insert_item natCmp 7).items.length) := by
  decide

/-- C10: `take_focus` returns `false` whenever the item store is empty,
whatever the `enabled` flag says (the source returns
`enabled && !items.is_empty()`). -/
theorem C10_take_focus_false_on_empty_store (s : TableView T H)
    (h : s.items = []) : s.take_focus = false := by
  simp [TableView.take_focus, h]

/-- C10 witness: the empty table with `enabled = true` refuses focus. -/
theorem C10_take_focus_false_on_empty_store_witness :
    ({ (TableView.new : TableView Nat Nat) with enabled := true }).items = [] ∧
    ({ (TableView.new : TableView Nat Nat) with enabled := true }).take_focus = false :=
  ⟨rfl, C10_take_focus_false_on_empty_store _ rfl⟩

/-- C4: the comparator dispatch of `sort_by` compares
`items[a]` against `items[b]` for `Ascending` (`Less`) and `items[b]`
against `items[a]` for `Descending`: the argument order is inverted, not
the result. Consequently a pair that the comparator calls equal (in both
argument orders) compares `Equal` under either direction, and when every
pair ties the stable sort run by the two directions is one and the same
list. -/
theorem C4_sort_comparator_dispatch {T H : Type} [Inhabited T]
    (cmp : T → T → H → Ordering) (items : List T) (column : H) (a b : Nat) :
    refCompare cmp items column Ordering.lt a b
        = cmp (items.getD a default) (items.getD b default) column ∧
    refCompare cmp items column Ordering.gt a b
        = cmp (items.getD b default) (items.getD a default) column ∧
    (cmp (items.getD a default) (items.getD b default) column = Ordering.eq →
      cmp (items.getD b default) (items.getD a default) column = Ordering.eq →
      ∀ order, refCompare cmp items column order a b = Ordering.eq) ∧
    ((∀ x y : T, cmp x y column = Ordering.eq) → ∀ refs : List Nat,
      refs.mergeSort
          (fun x y => refCompare cmp items column Ordering.lt x y != Ordering.gt)
        = refs.mergeSort
          (fun x y => refCompare cmp items column Ordering.gt x y != Ordering.gt)) := by
  refine ⟨by simp [refCompare], by simp [refCompare], ?_, ?_⟩
  · intro h1 h2 order
    by_cases ho : order = Ordering.lt
    · simpa [refCompare, ho] using h1
    · simpa [refCompare, ho] using h2
  · intro hall refs
    have hle : ∀ (ord : Ordering) (x y : Nat),
        (refCompare cmp items column ord x y != Ordering.gt) = true := by
      intro ord x y
      have he : refCompare cmp items column ord x y = Ordering.eq := by
        by_cases ho : ord = Ordering.lt <;> simp [refCompare, ho, hall]
      rw [he]
      rfl
    have h1 : refs.mergeSort
        (fun x y => refCompare cmp items column Ordering.lt x y != Ordering.gt) = refs :=
      List.mergeSort_of_sorted (pairwise_of_all (fun x y => hle Ordering.lt x y) refs)
    have h2 : refs.mergeSort
        (fun x y => refCompare cmp items column Ordering.gt x y != Ordering.gt) = refs :=
      List.mergeSort_of_sorted (pairwise_of_all (fun x y => hle Ordering.gt x y) refs)
    rw [h1, h2]

/-- C4 witness: concrete dispatches on the store `[5, 3]`, and one
all-ties sort run both ways. -/
theorem C4_sort_comparator_dispatch_witness :
    refCompare natCmp [5, 3] 0 Ordering.lt 0 1 = compare 5 3 ∧
    refCompare natCmp [5, 3] 0 Ordering.gt 0 1 = compare 3 5 ∧
    refCompare eqAllCmp [5, 3] 0 Ordering.lt 0 1 = Ordering.eq ∧
    ([2, 0, 1].mergeSort
        (fun x y => refCompare eqAllCmp [5, 3] 0 Ordering.lt x y != Ordering.gt)
      = [2, 0, 1].mergeSort
        (fun x y => refCompare eqAllCmp [5, 3] 0 Ordering.gt x y != Ordering.gt)) := by
  have h := C4_sort_comparator_dispatch natCmp [5, 3] 0 0 1
  have h2 := C4_sort_comparator_dispatch eqAllCmp [5, 3] 0 0 1
  exact ⟨h.1, by simpa using h.2.1,
    (h2.2.2.1 rfl rfl Ordering.lt),
    (h2.2.2.2 (fun x y => rfl) [2, 0, 1])⟩

/-- C8: the claim fails on the code. Delivering `End` to an empty store
computes `items.len() - 1 = 0 - 1` in `usize`: a panic in debug builds and
a wrap to `2^64 - 1` in release builds, so the focus row afterwards is
`2^64 - 1`, not clamped into `[0, len())` (here `0`). -/
theorem C8_end_on_empty_store_underflows_focus :
    (((TableView.new : TableView Nat Nat).on_event natCmp TEvent.endKey).1.focus
        = 2 ^ 64 - 1) ∧
    ((TableView.new : TableView Nat Nat).on_event natCmp TEvent.endKey).1.items.length
        = 0 := by
  exact ⟨rfl, rfl⟩

/-- Helper: the source's two passes over `sort_refs` — `retain(≠ i)` then
decrement-above-`i` — equal one `filterMap`. -/
theorem filter_map_decrement (i : Nat) (l : List Nat) :
    (l.filter (fun r => r != i)).map (fun r => if i < r then r - 1 else r)
      = l.filterMap (fun r => if r = i then none
          else some (if i < r then r - 1 else r)) := by
  induction l with
  | nil => rfl
  | cons a as ih =>
    by_cases h : a = i
    · simp [List.filter_cons, List.filterMap_cons, h, ih]
    · simp [List.filter_cons, List.filterMap_cons, h, ih]

/-- C7: `remove_item` with an out-of-range index returns no item and leaves
the state unchanged; with a valid index on a store of `n` items it returns
the record at that storage index, shrinks the store to `n - 1` records, and
rewrites `sort_refs` by dropping the entry equal to the index and
decrementing every entry greater than it by exactly 1. -/
theorem C7_remove_item_spec (s : TableView T H) (item_index : Nat) :
    (s.items.length ≤ item_index → s.remove_item item_index = (none, s)) ∧
    (item_index < s.items.length →
      (s.remove_item item_index).1 = s.items.get? item_index ∧
      (s.remove_item item_index).2.items.length = s.items.length - 1 ∧
      (s.remove_item item_index).2.sort_refs
        = s.sort_refs.filterMap (fun r => if r = item_index then none
            else some (if item_index < r then r - 1 else r))) := by
  constructor
  · intro hge
    simp [TableView.remove_item, Nat.not_lt.mpr hge]
  · intro hlt
    have hfocus : (if s.selected_item = some item_index
        then s.focus_up 1 else s).items = s.items := by
      split <;> rfl
    have hrefs : (if s.selected_item = some item_index
        then s.focus_up 1 else s).sort_refs = s.sort_refs := by
      split <;> rfl
    refine ⟨?_, ?_, ?_⟩
    · simp [TableView.remove_item, hlt, hfocus]
    · simp [TableView.remove_item, hlt, hfocus, List.length_eraseIdx, hlt]
    · simp [TableView.remove_item, hlt, hfocus, hrefs, filter_map_decrement]

/-- C7 witness: on `removeState` (items `[10, 20, 30]`, refs `[2, 0, 1]`)
index 5 is rejected without change and removing index 0 returns `10`,
leaves 2 items and rewrites the refs to `[1, 0]`. -/
theorem C7_remove_item_spec_witness :
    removeState.remove_item 5 = (none, removeState) ∧
    ((removeState.remove_item 0).1 = some 10 ∧
     (removeState.remove_item 0).2.items.length = 2 ∧
     (removeState.remove_item 0).2.sort_refs = [1, 0]) := by
  constructor
  · exact (C7_remove_item_spec removeState 5).1 (by decide)
  · have h := (C7_remove_item_spec removeState 0).2 (by decide)
    simpa [removeState, TableView.new] using h

/-- Helper: `select_item` only moves the focus. -/
theorem select_item_columns (s : TableView T H) (k : Nat) :
    (s.select_item k).columns = s.columns := by
  unfold TableView.select_item
  split
  · split <;> rfl
  · rfl

/-- Helper: `select_item` leaves the record storage unchanged. -/
theorem select_item_items (s : TableView T H) (k : Nat) :
    (s.select_item k).items = s.items := by
  unfold TableView.select_item
  split
  · split <;> rfl
  · rfl

/-- Helper: `select_item` leaves the display permutation unchanged. -/
theorem select_item_sort_refs (s : TableView T H) (k : Nat) :
    (s.select_item k).sort_refs = s.sort_refs := by
  unfold TableView.select_item
  split
  · split <;> rfl
  · rfl

/-- C6: the claim fails on the code. Key 1 is not registered on
`oneColState` (only key 0 is), yet `sort_by(1, Less)` still reorders
`sort_refs` from `[0, 1]` to `[1, 0]`: only the column-flag update is
guarded by the registry lookup, the re-sort of the display order is not. -/
theorem C6_sort_by_unknown_key_reorders :
    (1 : Nat) ∉ oneColState.column_indicies ∧
    oneColState.sort_refs = [0, 1] ∧
    (oneColState.sort_by natCmp 1 Ordering.lt).sort_refs = [1, 0] := by
  refine ⟨by decide, rfl, ?_⟩
  simp [oneColState, TableView.sort_by, TableView.sort_mark,
    TableView.sort_refs_pass, TableView.new, TableView.selected_item,
    TableView.select_item, scanSelect, refCompare, natCmp,
    List.mergeSort, List.splitInTwo, List.splitAt_eq, List.merge,
    show compare 5 3 = Ordering.gt from rfl,
    show (Ordering.gt != Ordering.gt) = false from rfl]

/-- C6 amended: an operation given an unregistered column key leaves every
column's state unchanged — `sort_by` skips the column-flag update and
`default_column` is a full no-op — but `sort_by` still reorders `sort_refs`
(and moves the focus with the selection) as shown by the counterexample. -/
theorem C6_unknown_key_preserves_column_state [DecidableEq H] [Inhabited T]
    (cmp : T → T → H → Ordering) (s : TableView T H) (column : H)
    (order : Ordering) (h : column ∉ s.column_indicies) :
    (s.sort_by cmp column order).columns = s.columns ∧
    s.default_column column = s := by
  constructor
  · have hmark : s.sort_mark column order = s := by
      simp only [TableView.sort_mark, if_neg h]
    unfold TableView.sort_by
    rw [hmark]
    unfold TableView.sort_refs_pass
    split
    · rfl
    · rw [select_item_columns]
  · simp only [TableView.default_column, if_neg h]

/-- C6 witness: the amended statement evaluated on `oneColState` with the
unregistered key 1. -/
theorem C6_unknown_key_preserves_column_state_witness :
    (1 : Nat) ∉ oneColState.column_indicies ∧
    (oneColState.sort_by natCmp 1 Ordering.lt).columns = oneColState.columns ∧
    oneColState.default_column 1 = oneColState :=
  ⟨by decide,
   (C6_unknown_key_preserves_column_state natCmp oneColState 1 Ordering.lt (by decide)).1,
   (C6_unknown_key_preserves_column_state natCmp oneColState 1 Ordering.lt (by decide)).2⟩

/-- Helper: a successful scan returns a position (relative to the starting
accumulator) holding the searched reference. -/
theorem scanSelect_spec (k : Nat) :
    ∀ (l : List Nat) (i j : Nat), scanSelect k l i = some j →
      i ≤ j ∧ j - i < l.length ∧ l.getD (j - i) 0 = k := by
  intro l
  induction l with
  | nil => intro i j h; cases h
  | cons a as ih =>
    intro i j h
    by_cases hak : a = k
    · rw [scanSelect, if_pos hak] at h
      obtain rfl : i = j := by injection h
      exact ⟨Nat.le_refl i, by simp, by simpa [Nat.sub_self] using hak⟩
    · rw [scanSelect, if_neg hak] at h
      obtain ⟨h1, h2, h3⟩ := ih (i + 1) j h
      refine ⟨by omega, by simp; omega, ?_⟩
      have hji : j - i = (j - (i + 1)) + 1 := by omega
      rw [hji]
      simpa using h3

/-- Helper: scanning for a reference that is present succeeds. -/
theorem scanSelect_isSome (k : Nat) :
    ∀ (l : List Nat) (i : Nat), k ∈ l → ∃ j, scanSelect k l i = some j := by
  intro l
  induction l with
  | nil => intro i h; cases h
  | cons a as ih =>
    intro i h
    by_cases hak : a = k
    · exact ⟨i, by rw [scanSelect, if_pos hak]⟩
    · have hk : k ∈ as := by
        rcases List.mem_cons.mp h with h1 | h1
        · exact absurd h1.symm hak
        · exact h1
      obtain ⟨j, hj⟩ := ih (i + 1) hk
      exact ⟨j, by rw [scanSelect, if_neg hak]; exact hj⟩

/-- Helper: the flag update touches only `columns`. -/
theorem sort_mark_items [DecidableEq H] (s : TableView T H) (column : H)
    (order : Ordering) : (s.sort_mark column order).items = s.items := by
  unfold TableView.sort_mark
  split <;> rfl

/-- Helper: the flag update leaves `sort_refs` unchanged. -/
theorem sort_mark_sort_refs [DecidableEq H] (s : TableView T H) (column : H)
    (order : Ordering) : (s.sort_mark column order).sort_refs = s.sort_refs := by
  unfold TableView.sort_mark
  split <;> rfl

/-- Helper: the flag update leaves the focus unchanged. -/
theorem sort_mark_focus [DecidableEq H] (s : TableView T H) (column : H)
    (order : Ordering) : (s.sort_mark column order).focus = s.focus := by
  unfold TableView.sort_mark
  split <;> rfl

/-- Helper: on a non-empty store whose focused reference is a valid storage
index present in `sort_refs`, the re-sort pass ends with `selected_item`
still that reference. -/
theorem sort_refs_pass_selected [Inhabited T] (cmp : T → T → H → Ordering)
    (s : TableView T H) (column : H) (order : Ordering)
    (hne : s.items ≠ [])
    (hlen : s.sort_refs.getD s.focus 0 < s.items.length)
    (hmem : s.sort_refs.getD s.focus 0 ∈ s.sort_refs) :
    (s.sort_refs_pass cmp column order).selected_item
      = some (s.sort_refs.getD s.focus 0) := by
  have hie : s.items.isEmpty = false := by
    simpa [List.isEmpty_iff] using hne
  have hold : s.selected_item.getD 0 = s.sort_refs.getD s.focus 0 := by
    simp only [TableView.selected_item, hie, Bool.false_eq_true, if_false,
      Option.getD_some]
  have hmem2 : s.sort_refs.getD s.focus 0
      ∈ s.sort_refs.mergeSort fun a b =>
          refCompare cmp s.items column order a b != Ordering.gt :=
    List.mem_mergeSort.mpr hmem
  obtain ⟨j, hj⟩ := scanSelect_isSome _ _ 0 hmem2
  obtain ⟨-, hjlt, hjget⟩ := scanSelect_spec _ _ 0 j hj
  rw [Nat.sub_zero] at hjget
  simp only [TableView.sort_refs_pass, hie, Bool.false_eq_true, if_false,
    TableView.select_item, TableView.selected_item, Option.getD_some, hlen,
    if_true, hj, hjget]

/-- C3: on a well-formed non-empty store (`sort_refs` a permutation of
`0..items.len()`), selecting storage index `k` present in `sort_refs` and
then sorting by any column and direction leaves `selected_item()` equal to
`some k`: the selection follows the stored record across any re-sort. -/
theorem C3_selection_follows_record_across_sort [DecidableEq H] [Inhabited T]
    (cmp : T → T → H → Ordering) (s : TableView T H) (column : H)
    (order : Ordering) (k : Nat)
    (hwf : List.Perm s.sort_refs (List.range s.items.length))
    (hk : k ∈ s.sort_refs) :
    ((s.select_item k).sort_by cmp column order).selected_item = some k := by
  have hklen : k < s.items.length := List.mem_range.mp (hwf.mem_iff.mp hk)
  have hne : s.items ≠ [] := by
    intro h0
    rw [h0] at hklen
    exact absurd hklen (by simp)
  obtain ⟨j, hj⟩ := scanSelect_isSome k s.sort_refs 0 hk
  obtain ⟨-, hjlt, hjget⟩ := scanSelect_spec k s.sort_refs 0 j hj
  rw [Nat.sub_zero] at hjget
  have hsel : s.select_item k = { s with focus := j } := by
    simp only [TableView.select_item, hklen, if_true, hj]
  rw [hsel]
  unfold TableView.sort_by
  set t := ({ s with focus := j } : TableView T H).sort_mark column order with ht
  have hti : t.items = s.items := by rw [ht, sort_mark_items]
  have htr : t.sort_refs = s.sort_refs := by rw [ht, sort_mark_sort_refs]
  have htf : t.focus = j := by rw [ht, sort_mark_focus]
  have hgd : t.sort_refs.getD t.focus 0 = k := by rw [htr, htf, hjget]
  have hpass := sort_refs_pass_selected cmp t column order
    (by rw [hti]; exact hne)
    (by rw [hgd, hti]; exact hklen)
    (by rw [hgd, htr]; exact hk)
  rw [hpass, hgd]

/-- C3 witness: on `sortWitState` (items `[5, 3]`, identity refs) selecting
storage index 1 and sorting ascending by value keeps storage index 1
selected (it moves to display row 0). -/
theorem C3_selection_follows_record_across_sort_witness :
    List.Perm sortWitState.sort_refs (List.range sortWitState.items.length) ∧
    1 ∈ sortWitState.sort_refs ∧
    ((sortWitState.select_item 1).sort_by natCmp 0 Ordering.lt).selected_item
      = some 1 :=
  ⟨by decide, by decide,
   C3_selection_follows_record_across_sort natCmp sortWitState 0 Ordering.lt 1
     (by decide) (by decide)⟩

/-- Helper: `sizedWidths` produces one width per sized column. -/
theorem sizedWidths_length (size_x : Nat) :
    ∀ (l : List TableColumnWidth) (remaining : Nat),
      (sizedWidths size_x remaining l).1.length = l.length := by
  intro l
  induction l with
  | nil => intro r; rfl
  | cons w ws ih => intro r; simp [sizedWidths, ih]

/-- Helper: when every sized request is a percentage, each allotment is
capped by what remains, so the computed widths plus the final remainder
exactly split the initial budget. -/
theorem sizedWidths_percent_sum (size_x : Nat) :
    ∀ (l : List TableColumnWidth) (remaining : Nat),
      (∀ w ∈ l, ∀ n, w ≠ TableColumnWidth.absolute n) →
      (sizedWidths size_x remaining l).1.sum + (sizedWidths size_x remaining l).2
        = remaining := by
  intro l
  induction l with
  | nil => intro r _; simp [sizedWidths]
  | cons w ws ih =>
    intro r h
    match w with
    | TableColumnWidth.percent p =>
      have hc : columnWidth size_x r (TableColumnWidth.percent p) ≤ r :=
        Nat.min_le_right _ _
      have hrec := ih (r - columnWidth size_x r (TableColumnWidth.percent p))
        (fun w2 hw n => h w2 (List.mem_cons_of_mem _ hw) n)
      simp only [sizedWidths, List.sum_cons]
      omega
    | TableColumnWidth.absolute n =>
      exact absurd rfl (h _ (List.mem_cons_self _ _) n)

/-- Helper: `assignWidths` writes back one column per input column. -/
theorem assignWidths_length (uw : Nat) :
    ∀ (cols : List (TableColumn H)) (ws : List Nat),
      (assignWidths uw cols ws).length = cols.length := by
  intro cols
  induction cols with
  | nil => intro ws; rfl
  | cons c cs ih =>
    intro ws
    cases hcw : c.requested_width with
    | some w =>
      cases ws with
      | nil => simp [assignWidths, hcw, ih]
      | cons w2 ws2 => simp [assignWidths, hcw, ih]
    | none => simp [assignWidths, hcw, ih]

/-- Helper: with exactly one computed width per sized column, the written
widths sum to the sized widths plus the spread width once per unsized
column. -/
theorem assignWidths_sum (uw : Nat) :
    ∀ (cols : List (TableColumn H)) (ws : List Nat),
      (cols.filterMap (fun c => c.requested_width)).length = ws.length →
      ((assignWidths uw cols ws).map (fun c => c.width)).sum
        = ws.sum + uw * (cols.filter (fun c => c.requested_width.isNone)).length := by
  intro cols
  induction cols with
  | nil =>
    intro ws h
    have hws : ws = [] := by
      cases ws with
      | nil => rfl
      | cons a as => simp at h
    subst hws
    rfl
  | cons c cs ih =>
    intro ws h
    cases hcw : c.requested_width with
    | some w =>
      rw [List.filterMap_cons, hcw] at h
      cases ws with
      | nil => simp at h
      | cons w2 ws2 =>
        simp only [List.length_cons, Nat.succ_inj] at h
        have hrec := ih ws2 h
        simp [assignWidths, hcw, List.filter_cons, hrec]
        omega
    | none =>
      rw [List.filterMap_cons, hcw] at h
      have hrec := ih ws h
      simp [assignWidths, hcw, List.filter_cons, hrec, Nat.mul_succ]
      omega

/-- C5: the claim fails on the code at two concrete inputs. An Absolute
column is granted exactly its requested width with no cap: laying out
`absColState` (one column, `Absolute(1000)`) at total width 10 computes a
width sum of 1000. And the 3-cell separators are reserved even when the
total width cannot hold them: laying out `twoUnsizedState` (two unsized
columns) at total width 1 gives zero-width columns whose drawn span is
still the 3-cell separator, exceeding 1. -/
theorem C5_layout_width_sum_can_exceed_total :
    ((absColState.layout 10 5).totalDrawWidth = 1000 ∧
      10 < (absColState.layout 10 5).totalDrawWidth) ∧
    ((twoUnsizedState.layout 1 5).totalDrawWidth = 3 ∧
      1 < (twoUnsizedState.layout 1 5).totalDrawWidth) := by
  decide

/-- C5 amended: when every column uses the `Percent` policy (no `Absolute`
column, whose requested width is granted uncapped, and no unsized column,
whose spread width the source computes through `f32` division that can
round above the exact floor once values reach `2^24` — e.g. total
16777219 with one unsized column casts to `16777220.0` and yields width
16777220) and the total width is at least the `3 × (columns − 1)`
separator reserve, the sum of the computed column widths plus the
separators never exceeds the total width supplied to `layout`. Under these
hypotheses the bound is independent of the floating-point raw values: each
percent width reaches the column only through the `usize` `min` cap
against the remaining budget. The hypothesis on `last_size` makes the
recomputation actually run. -/
theorem C5_layout_percent_width_sum_bounded (s : TableView T H)
    (size_x size_y : Nat)
    (hnew : ¬ (size_x = s.last_size_x ∧ size_y = s.last_size_y))
    (hsep : 3 * (s.columns.length - 1) ≤ size_x)
    (hpct : ∀ c ∈ s.columns, ∃ p,
      c.requested_width = some (TableColumnWidth.percent p)) :
    (s.layout size_x size_y).totalDrawWidth ≤ size_x := by
  simp only [TableView.layout, hnew, if_false, TableView.totalDrawWidth]
  set n := s.columns.length with hn
  set A1 := size_x - (n - 1) * 3 with hA1
  set A := if size_y - 1 < s.items.length then A1 - 2 else A1 with hA
  set rws := s.columns.filterMap (fun c => c.requested_width) with hrws
  set u := (s.columns.filter (fun c => c.requested_width.isNone)).length with hu
  set uw := (sizedWidths size_x A rws).2 / u with huw
  have hall : ∀ w ∈ rws, ∀ m, w ≠ TableColumnWidth.absolute m := by
    intro w hw m heq
    obtain ⟨c, hc, hcw⟩ := List.mem_filterMap.mp hw
    obtain ⟨p, hp⟩ := hpct c hc
    rw [hp] at hcw
    rw [heq] at hcw
    simp at hcw
  have hsum := sizedWidths_percent_sum size_x rws A hall
  have hlen := sizedWidths_length size_x rws A
  have hassign := assignWidths_sum uw s.columns (sizedWidths size_x A rws).1
    (by rw [hlen])
  have halen := assignWidths_length uw s.columns (sizedWidths size_x A rws).1
  rw [hassign, halen, ← hu]
  have hdiv : uw * u ≤ (sizedWidths size_x A rws).2 := Nat.div_mul_le_self _ _
  have hAle : A ≤ A1 := by
    rw [hA]
    split
    · exact Nat.sub_le _ _
    · exact Nat.le_refl _
  omega

/-- C5 witness: the amended bound evaluated on `percentColState` (a 50%
column and a 30% column) at total width 20: widths 10 and 6 plus the
3-cell separator give 19 ≤ 20. -/
theorem C5_layout_percent_width_sum_bounded_witness :
    ¬ ((20 : Nat) = percentColState.last_size_x ∧
        (5 : Nat) = percentColState.last_size_y) ∧
    3 * (percentColState.columns.length - 1) ≤ 20 ∧
    (∀ c ∈ percentColState.columns, ∃ p,
      c.requested_width = some (TableColumnWidth.percent p)) ∧
    (percentColState.layout 20 5).totalDrawWidth ≤ 20 := by
  have hpct : ∀ c ∈ percentColState.columns, ∃ p,
      c.requested_width = some (TableColumnWidth.percent p) := by
    intro c hc
    simp only [percentColState, TableView.new, List.mem_cons,
      List.not_mem_nil, or_false] at hc
    rcases hc with h1 | h1 <;> subst h1
    · exact ⟨50, rfl⟩
    · exact ⟨30, rfl⟩
  exact ⟨by decide, by decide, hpct,
    C5_layout_percent_width_sum_bounded percentColState 20 5 (by decide)
      (by decide) hpct⟩

/-- Helper: `getD` at an in-bounds index with the default-default. -/
theorem getD_lt_eq_get {α : Type} [Inhabited α] (l : List α) (i : Nat)
    (hi : i < l.length) : l.getD i default = l.get ⟨i, hi⟩ := by
  rw [List.getD_eq_getElem?_getD, List.getElem?_eq_getElem hi]
  rfl

/-- Helper: `getD` through `map` at an in-bounds index. -/
theorem getD_map_lt {α β : Type} [Inhabited α] [Inhabited β] (f : α → β)
    (l : List α) (j : Nat) (hj : j < l.length) :
    (l.map f).getD j default = f (l.getD j default) := by
  have hj2 : j < (l.map f).length := by simpa using hj
  rw [getD_lt_eq_get _ _ hj2, getD_lt_eq_get _ _ hj]
  simp

/-- Helper: distinct positions of a column list with pairwise distinct keys
hold distinct keys. -/
theorem nodup_keys_getD_ne [Inhabited H] (l : List (TableColumn H))
    (hkeys : (l.map (fun c => c.column)).Nodup) (i j : Nat)
    (hi : i < l.length) (hj : j < l.length) (hij : i ≠ j) :
    (l.getD i default).column ≠ (l.getD j default).column := by
  intro heq
  have hi2 : i < (l.map (fun c => c.column)).length := by simpa using hi
  have hj2 : j < (l.map (fun c => c.column)).length := by simpa using hj
  have hget : (l.map (fun c => c.column)).get ⟨i, hi2⟩
      = (l.map (fun c => c.column)).get ⟨j, hj2⟩ := by
    rw [← getD_lt_eq_get, ← getD_lt_eq_get, getD_map_lt _ _ _ hi, getD_map_lt _ _ _ hj]
    exact heq
  have := hkeys.get_inj_iff.mp hget
  exact hij (by simpa using this)

/-- Helper: the re-sort pass never changes the column descriptors. -/
theorem sort_refs_pass_columns [Inhabited T] (cmp : T → T → H → Ordering)
    (s : TableView T H) (column : H) (order : Ordering) :
    (s.sort_refs_pass cmp column order).columns = s.columns := by
  unfold TableView.sort_refs_pass
  split
  · rfl
  · rw [select_item_columns]

/-- C9: committing a sort (Enter in column-select mode, `column_select` in
the source) with the active column at position `nxt` and the currently
sorted column at position `cur` (keys pairwise distinct, active key
registered): every column other than `nxt` ends with direction `None`
(`Equal`) — so at most one column is sorted afterwards; when `nxt` is the
column already sorted Ascending the commit yields Descending on it; when
`nxt` differs from `cur` the commit applies `nxt`'s configured default
direction. -/
theorem C9_commit_sort_toggle [DecidableEq H] [Inhabited T] [Inhabited H]
    (cmp : T → T → H → Ordering) (s : TableView T H) (cur nxt : Nat)
    (hsel : s.columns.findIdx? (fun c => c.selected) = some nxt)
    (hcur : s.columns.findIdx? (fun c => c.order != Ordering.eq) = some cur)
    (hreg : (s.columns.getD nxt default).column ∈ s.column_indicies)
    (hkeys : (s.columns.map (fun c => c.column)).Nodup) :
    (∀ j, j < s.columns.length → j ≠ nxt →
      (((s.column_select_commit cmp).columns.getD j default).order
        = Ordering.eq)) ∧
    (cur = nxt → (s.columns.getD cur default).order = Ordering.lt →
      ((s.column_select_commit cmp).columns.getD nxt default).order
        = Ordering.gt) ∧
    (cur ≠ nxt →
      ((s.column_select_commit cmp).columns.getD nxt default).order
        = (s.columns.getD nxt default).default_order) := by
  have hnl : nxt < s.columns.length :=
    (List.findIdx?_eq_some_iff_findIdx_eq.mp hsel).1
  have hcols : (s.column_select_commit cmp).columns
      = s.columns.map (fun c =>
          if c.column = (s.columns.getD nxt default).column
          then { c with selected := true,
                        order := if cur ≠ nxt
                          then (s.columns.getD nxt default).default_order
                          else if (s.columns.getD cur default).order = Ordering.lt
                          then Ordering.gt else Ordering.lt }
          else { c with selected := false, order := Ordering.eq }) := by
    simp only [TableView.column_select_commit, TableView.active_column, hsel, hcur,
      Option.getD_some, TableView.sort_by, sort_refs_pass_columns,
      TableView.sort_mark, if_pos hreg]
  refine ⟨?_, ?_, ?_⟩
  · intro j hj hjn
    rw [hcols, getD_map_lt _ _ _ hj,
      if_neg (nodup_keys_getD_ne s.columns hkeys j nxt hj hnl hjn)]
  · intro hcn hasc
    subst hcn
    rw [hcols, getD_map_lt _ _ _ hnl, if_pos rfl]
    simp only [ne_eq, eq_self_iff_true, not_true, if_false, hasc, if_true]
  · intro hcn
    rw [hcols, getD_map_lt _ _ _ hnl, if_pos rfl]
    simp only [if_pos hcn]

/-- C9 witness: on `twoColState` (column 0 sorted Ascending and active)
the commit toggles column 0 to Descending and keeps column 1 at None; on
`twoColStateB` (column 0 sorted Ascending, column 1 active with default
Greater) the commit applies column 1's default direction and resets
column 0 to None. -/
theorem C9_commit_sort_toggle_witness :
    (twoColState.columns.findIdx? (fun c => c.selected) = some 0 ∧
     twoColState.columns.findIdx? (fun c => c.order != Ordering.eq) = some 0 ∧
     ((twoColState.column_select_commit natCmp).columns.getD 0 default).order
        = Ordering.gt ∧
     ((twoColState.column_select_commit natCmp).columns.getD 1 default).order
        = Ordering.eq) ∧
    (twoColStateB.columns.findIdx? (fun c => c.selected) = some 1 ∧
     twoColStateB.columns.findIdx? (fun c => c.order != Ordering.eq) = some 0 ∧
     ((twoColStateB.column_select_commit natCmp).columns.getD 1 default).order
        = Ordering.gt ∧
     ((twoColStateB.column_select_commit natCmp).columns.getD 0 default).order
        = Ordering.eq) := by
  constructor
  · refine ⟨by decide, by decide, ?_, ?_⟩
    · exact (C9_commit_sort_toggle natCmp twoColState 0 0 (by decide) (by decide)
        (by decide) (by decide)).2.1 rfl (by decide)
    · exact (C9_commit_sort_toggle natCmp twoColState 0 0 (by decide) (by decide)
        (by decide) (by decide)).1 1 (by decide) (by decide)
  · refine ⟨by decide, by decide, ?_, ?_⟩
    · exact ((C9_commit_sort_toggle natCmp twoColStateB 0 1 (by decide) (by decide)
        (by decide) (by decide)).2.2 (by decide)).trans (by decide)
    · exact (C9_commit_sort_toggle natCmp twoColStateB 0 1 (by decide) (by decide)
        (by decide) (by decide)).1 0 (by decide) (by decide)
